import Mathlib

/-!
Verification of the `approvers-repeater` web component
(`src/approvers-repeater.ts`): a shallow embedding of its row collection,
per-row debounced directory search, authentication flow, and persistence
pipeline, together with theorems settling the specification's claims.

Conventions of the embedding:
* `Record<number, T>` objects are modelled as functions `Nat → Option T`
  (`none` = key absent); the TypeScript falsy-defaulting reads
  (`m[i] || d`) are modelled with `Option.getD`.
* The single-threaded, cooperative (timer/promise driven) runtime is
  modelled as explicit event steps on a state record: scheduling a
  debounce timer, firing it, and resolving an in-flight request are
  separate steps that the environment interleaves.
* Platform functions (`JSON.stringify`, DOM event dispatch, `fetch`,
  MSAL calls) are modelled by concrete serializers and emission/request
  logs; their internal behavior is irrelevant to the claims, only which
  calls the component issues and how it reacts.
-/

namespace Approvers

/-- Resolved directory identity (`type Person`, src lines 6-11). -/
structure Person where
  id : String
  displayName : String
  email : Option String
  login : String
deriving DecidableEq, Repr

/-- Persisted row `{ order: number; approver: string }` (src line 73).
`order` is modelled as `Nat`: every order the component writes is a
1-based position produced by `renumberOrders`. -/
structure Row where
  order : Nat
  approver : String
deriving DecidableEq, Repr

/-! ## Row collection operations (src lines 285-297, 386-400, 570-649) -/

/-- Models `renumberOrders` (src lines 397-400): the
`rows.forEach((r, i) => r.order = i + 1)` loop, generalized over the
starting position `n` so that it can be reasoned about by recursion. -/
def renumberFrom : Nat → List Row → List Row
  | _, [] => []
  | n, r :: rest => { r with order := n + 1 } :: renumberFrom (n + 1) rest

/-- Models `renumberOrders` (src lines 397-400). -/
def renumberOrders (rows : List Row) : List Row :=
  renumberFrom 0 rows

/-- Models the `while (this.rows.length < this.minRows) push(...)` loop of
`ensureMinRows` (src lines 386-395), on the rows array. -/
def ensureMinRowsLoop (minRows : Nat) (rows : List Row) : List Row :=
  if rows.length < minRows then
    ensureMinRowsLoop minRows (rows ++ [⟨rows.length + 1, ""⟩])
  else rows
termination_by minRows - rows.length
decreasing_by simp; omega

/-- Models `addRow` (src lines 570-584) on the rows array: rejected
silently at or above `maxRows`, otherwise appends an empty row with
`order = length + 1`. -/
def addRow (maxRows : Nat) (rows : List Row) : List Row :=
  if maxRows ≤ rows.length then rows
  else rows ++ [⟨rows.length + 1, ""⟩]

/-- Swap of adjacent entries `i` and `i+1`, both read from the original
array (models the simultaneous destructuring swap at src lines 620, 640). -/
def swapAdj (rows : List Row) (i : Nat) : List Row :=
  if h : i + 1 < rows.length then
    (rows.set i (rows.get ⟨i + 1, h⟩)).set (i + 1)
      (rows.get ⟨i, Nat.lt_of_succ_lt h⟩)
  else rows

/-- Models `moveUp` (src lines 611-629) on the rows array: no-op at
`index = 0`, otherwise swap with the predecessor and renumber.  The UI
only invokes it with `index < rows.length` (one button per rendered row). -/
def moveUpRows (index : Nat) (rows : List Row) : List Row :=
  if index = 0 then rows
  else renumberOrders (swapAdj rows (index - 1))

/-- Models `moveDown` (src lines 631-649) on the rows array: no-op at the
last position (the guard `index >= this.rows.length - 1`), otherwise swap
with the successor and renumber. -/
def moveDownRows (index : Nat) (rows : List Row) : List Row :=
  if rows.length ≤ index + 1 then rows
  else renumberOrders (swapAdj rows index)

/-- Models `removeRow` (src lines 586-609) on the rows array:
`splice(index, 1)`, then `renumberOrders`, then the `ensureMinRows`
refill. -/
def removeRowRows (minRows index : Nat) (rows : List Row) : List Row :=
  ensureMinRowsLoop minRows (renumberOrders (rows.eraseIdx index))

/-- Models `loadValue` (src lines 285-297) on the rows array: the parsed
persisted value (`JSON.parse` supplied here as `parsed`; a non-array or
unparsable value yields `[]`) is renumbered and, outside display mode,
refilled to `minRows`.  No truncation to `maxRows` occurs anywhere. -/
def loadRows (displayMode : Bool) (minRows : Nat) (parsed : List Row) : List Row :=
  if displayMode then renumberOrders parsed
  else ensureMinRowsLoop minRows (renumberOrders parsed)

/-! ## Position-keyed transient maps (src lines 75-77, 592-602) -/

/-- Write of one key of a `Record<number, T>` (the spread-update idiom
`\x7b ...m, [i]: x \x7d`). -/
def setKey {α : Type} (m : Nat → Option α) (i : Nat) (x : α) : Nat → Option α :=
  fun j => if j = i then some x else m j

/-- Deletion of one key of a `Record<number, T>` (the rest-destructuring
idiom `const \x7b [i]: _, ...rest \x7d = m`). -/
def delKey {α : Type} (m : Nat → Option α) (i : Nat) : Nat → Option α :=
  fun j => if j = i then none else m j

/-- Editable-mode state relevant to structural edits: the rows array plus
the three position-keyed transient maps (src lines 73-77).  A selection
entry stores `Person | null`, hence the nested `Option`. -/
structure EditState where
  rows : List Row
  terms : Nat → Option String
  selections : Nat → Option (Option Person)
  suggestions : Nat → Option (List Person)

/-- Models `removeRow` (src lines 586-609) on the full editable state:
the row is spliced out and, in the same synchronous step, the three
transient maps are rebuilt over the surviving positions with
`new[i] = old[i >= index ? i + 1 : i] || default`; renumbering and the
`ensureMinRows` refill follow.  Refill rows receive no map entries. -/
def removeRowE (minRows index : Nat) (s : EditState) : EditState :=
  let rows1 := s.rows.eraseIdx index
  { rows := ensureMinRowsLoop minRows (renumberOrders rows1)
    terms := fun i => if i < rows1.length then
      some ((s.terms (if index ≤ i then i + 1 else i)).getD "") else none
    selections := fun i => if i < rows1.length then
      some ((s.selections (if index ≤ i then i + 1 else i)).getD none) else none
    suggestions := fun i => if i < rows1.length then
      some ((s.suggestions (if index ≤ i then i + 1 else i)).getD []) else none }

/-- Defaulted read of a row's term (`this.terms[i] || ''`). -/
def getTerm (m : Nat → Option String) (i : Nat) : String :=
  (m i).getD ""

/-- Defaulted read of a row's selection (`this.selections[i] || null`). -/
def getSel (m : Nat → Option (Option Person)) (i : Nat) : Option Person :=
  (m i).getD none

/-- Defaulted read of a row's suggestions (`this.suggestions[i] || []`). -/
def getSugg (m : Nat → Option (List Person)) (i : Nat) : List Person :=
  (m i).getD []

/-! ## Debounced search pipeline (src lines 86, 505-538) -/

/-- Search configuration: the minimum-character threshold `minChars`. -/
structure SearchCfg where
  minChars : Nat
deriving Repr

/-- Effective threshold: the component reads `this.minChars || 2`
(src lines 516, 707), so a zero threshold falls back to 2. -/
def SearchCfg.eff (c : SearchCfg) : Nat :=
  if c.minChars = 0 then 2 else c.minChars

/-- A scheduled or dispatched search: the row index and the term captured
by the timer callback closure (src lines 522-525). -/
structure Query where
  row : Nat
  term : String
deriving DecidableEq, Repr

/-- Component state driving the per-row search pipeline.  `pendingTimer`
is the single `debounceTimer` field (src line 86) together with the data
its scheduled callback would use; `inflight` are dispatched
`graphSearch` calls whose promises have not yet settled, in start order;
`searchLog` records every dispatched `graphSearch` call. -/
structure SearchState where
  terms : Nat → Option String
  suggestions : Nat → Option (List Person)
  activeRowIndex : Option Nat
  errorMsg : String
  loading : Bool
  pendingTimer : Option Query
  inflight : List Query
  searchLog : List Query

/-- Initial search-pipeline state: empty maps, no error, no timer, no
in-flight query (src lines 75-86). -/
def initSearch : SearchState :=
  ⟨fun _ => none, fun _ => none, none, "", false, none, [], []⟩

/-- Models `onRowInput` (src lines 505-538) in editable mode: record the
raw term, mark the row active, clear the shared error message, cancel the
single pending debounce timer; below the threshold delete the row's
suggestions and stop, otherwise schedule a query for this row and term. -/
def inputStep (cfg : SearchCfg) (index : Nat) (v : String) (s : SearchState) : SearchState :=
  let s1 : SearchState :=
    { s with terms := setKey s.terms index v
             activeRowIndex := some index
             errorMsg := ""
             pendingTimer := none }
  if v.length < cfg.eff then
    { s1 with suggestions := delKey s1.suggestions index }
  else
    { s1 with pendingTimer := some ⟨index, v⟩ }

/-- Models the debounce timer elapsing (the `setTimeout` callback at src
lines 522-537 starting to run): if a timer is pending, `loading` is set
and the captured query is dispatched to `graphSearch`; a cancelled
(absent) timer never runs. -/
def fireStep (s : SearchState) : SearchState :=
  match s.pendingTimer with
  | none => s
  | some q =>
    { s with pendingTimer := none
             loading := true
             inflight := s.inflight ++ [q]
             searchLog := s.searchLog ++ [q] }

/-- Models a dispatched `graphSearch` promise resolving successfully
(src lines 525-527, 533-536): the results are written to the query's row
unconditionally — the callback has no staleness guard — and `loading`
clears. -/
def resolveOkStep (q : Query) (results : List Person) (s : SearchState) : SearchState :=
  if q ∈ s.inflight then
    { s with suggestions := setKey s.suggestions q.row results
             inflight := s.inflight.erase q
             loading := false }
  else s

/-- Models a dispatched `graphSearch` promise rejecting (src lines
528-536): the single shared `errorMsg` field is set (empty message falls
back to `'Search error.'`), the failing row's suggestions are deleted,
and `loading` clears. -/
def resolveErrStep (q : Query) (msg : String) (s : SearchState) : SearchState :=
  if q ∈ s.inflight then
    { s with errorMsg := if msg = "" then "Search error." else msg
             suggestions := delKey s.suggestions q.row
             inflight := s.inflight.erase q
             loading := false }
  else s

/-- A burst of keystrokes on one row inside the idle window: consecutive
`onRowInput` events with no timer firing in between. -/
def applyBurst (cfg : SearchCfg) (index : Nat) : List String → SearchState → SearchState
  | [], s => s
  | v :: vs, s => applyBurst cfg index vs (inputStep cfg index v s)

/-! ## Authentication flow (src lines 407-445) -/

/-- Progress of one `ensureAccount` execution through its suspension
points (src lines 423-433): `start` = resumed from `await ensureMsal()`,
about to read the shared account; `promptWait` = has invoked
`loginPopup` and awaits the user; `done` = finished. -/
inductive AuthPc where
  | start
  | promptWait
  | done
deriving DecidableEq, Repr

/-- Shared authentication world: the active account visible through
`getActiveAccount() / getAllAccounts()[0]` plus the component's
`this.account`, the number of `loginPopup` invocations (interactive
prompts opened), and the program counter of each concurrent
`ensureAccount` execution. -/
structure AuthWorld where
  account : Option String
  prompts : Nat
  tasks : List AuthPc
deriving DecidableEq, Repr

/-- Scheduler step running task `t` from `start` (src lines 425-428):
read the shared account; if present the task finishes without a prompt,
otherwise it invokes `loginPopup` — opening an interactive prompt — and
suspends.  No lock is consulted. -/
def authRun (w : AuthWorld) (t : Nat) : AuthWorld :=
  match w.tasks.get? t with
  | some AuthPc.start =>
    match w.account with
    | some _ => { w with tasks := w.tasks.set t AuthPc.done }
    | none => { w with prompts := w.prompts + 1
                       tasks := w.tasks.set t AuthPc.promptWait }
  | _ => w

/-- Scheduler step resolving task `t`'s interactive prompt with account
`acct` (src lines 428-431): the account is stored and set active. -/
def authResume (w : AuthWorld) (t : Nat) (acct : String) : AuthWorld :=
  match w.tasks.get? t with
  | some AuthPc.promptWait =>
    { w with account := some acct
             tasks := w.tasks.set t AuthPc.done }
  | _ => w

/-! ## Persistence pipeline (src lines 324-384) -/

/-- Escaping of one character inside a JSON string literal (models the
platform `JSON.stringify` escaping; quote and backslash suffice for the
data in scope). -/
def jsonEscapeChar (c : Char) : String :=
  if c = '"' then "\\\"" else if c = '\\' then "\\\\" else String.singleton c

/-- JSON string literal for `s`. -/
def jsonStringLit (s : String) : String :=
  "\"" ++ String.join (s.data.map jsonEscapeChar) ++ "\""

/-- Compact serialization of one row, as `JSON.stringify` renders
`\x7b order, approver \x7d`. -/
def rowCompact (r : Row) : String :=
  "\x7b\"order\":" ++ toString r.order ++ ",\"approver\":" ++ jsonStringLit r.approver ++ "\x7d"

/-- Models `JSON.stringify(this.rows)` (src line 329): the canonical
compact form; an empty collection serializes to `[]`. -/
def stringifyRows (rows : List Row) : String :=
  "[" ++ String.intercalate "," (rows.map rowCompact) ++ "]"

/-- Indented serialization of one row, as `JSON.stringify(_, null, 2)`
renders it. -/
def rowPretty (r : Row) : String :=
  "  \x7b\n    \"order\": " ++ toString r.order ++ ",\n    \"approver\": "
    ++ jsonStringLit r.approver ++ "\n  \x7d"

/-- Models `JSON.stringify(this.rows, null, 2)` (src line 330): the
pretty-printed form written to the mirror sink. -/
def stringifyRowsPretty (rows : List Row) : String :=
  if rows.isEmpty then "[]"
  else "[\n" ++ String.intercalate ",\n" (rows.map rowPretty) ++ "\n]"

/-- Externally observable emissions of one `saveValue` call: the
`ntx-value-change` and `change` events dispatched to the host on a value
change (src lines 334-340), and a write of the pretty JSON into the
configured mirror sink (src lines 345-382, covering the textarea
assignment, its synthetic events, the focus/blur cycle and the Nintex
API update, all driven by the same single write). -/
inductive Emission where
  | ntxValueChange (v : String)
  | changeEvent (v : String)
  | sinkWrite (targetId : String) (pretty : String)
deriving DecidableEq, Repr

/-- Whether an emission is the host value-change notification. -/
def Emission.isHostValueChange : Emission → Bool
  | .ntxValueChange _ => true
  | _ => false

/-- State consulted by `saveValue`: the mode flag, the currently bound
serialized value, the rows, the configured mirror sink id (empty string
= not configured) and whether `getElementById` finds the sink. -/
structure SaveState where
  displayMode : Bool
  value : String
  rows : List Row
  jsonTargetId : String
  sinkPresent : Bool
deriving DecidableEq, Repr

/-- Models `saveValue` (src lines 324-384).  Display mode suppresses
everything.  Otherwise the compact form is compared with the bound
value and the host notifications fire only on a difference — but the
mirror-sink block (src lines 345-383) sits outside that comparison and
runs on every call whenever a sink id is configured. -/
def saveValue (s : SaveState) : SaveState × List Emission :=
  if s.displayMode then (s, [])
  else
    let newValue := stringifyRows s.rows
    let jsonValue := stringifyRowsPretty s.rows
    let upd : SaveState × List Emission :=
      if s.value ≠ newValue then
        ({ s with value := newValue },
         [Emission.ntxValueChange newValue, Emission.changeEvent newValue])
      else (s, [])
    let sinkEms : List Emission :=
      if s.jsonTargetId ≠ "" ∧ s.sinkPresent then
        [Emission.sinkWrite s.jsonTargetId jsonValue]
      else []
    (upd.1, upd.2 ++ sinkEms)

/-! ## Outbound directory/auth requests (src lines 302-318, 448-502) -/

/-- Outbound calls the component can issue: a token acquisition (silent
attempt, possibly followed by an interactive prompt), a by-key identity
lookup, and a people search. -/
inductive Request where
  | tokenAcquisition
  | resolveByKey (key : String)
  | search (term : String)
deriving DecidableEq, Repr

/-- Models `fetchUserDetails` (src lines 448-465) as the requests it
issues: a token acquisition then the by-key Graph lookup.  It contains
no display-mode check. -/
def fetchUserDetailsRequests (email : String) : List Request :=
  [Request.tokenAcquisition, Request.resolveByKey email]

/-- Models the resolve loop of `loadValue` (src lines 302-318) as the
requests it issues: one `fetchUserDetails` call per row with a non-empty
approver key, in row order.  The `displayMode` argument is deliberately
unused — the loop has no display-mode gate. -/
def loadValueResolveRequests (displayMode : Bool) : List Row → List Request
  | [] => []
  | r :: rest =>
    (if r.approver ≠ "" then fetchUserDetailsRequests r.approver else [])
      ++ loadValueResolveRequests displayMode rest

/-- Models `graphSearch` (src lines 468-502) as the requests it issues:
display mode short-circuits to none (and an empty result) before any
token work; otherwise a token acquisition and the search call. -/
def graphSearchRequests (displayMode : Bool) (term : String) : List Request :=
  if displayMode then []
  else [Request.tokenAcquisition, Request.search term]

/-! ## Renumbering invariant -/

/-- Every row's `order` equals its position plus one (spec §3, §8). -/
def ordersOk (l : List Row) : Prop :=
  ∀ i (h : i < l.length), (l.get ⟨i, h⟩).order = i + 1

/-! ## Concrete data for counterexample traces -/

/-- Sample resolved identity. -/
def personAlice : Person :=
  ⟨"id-alice", "Alice Anderson", some "alice@x.com", "alice@x.com"⟩

/-- Sample resolved identity. -/
def personBob : Person :=
  ⟨"id-bob", "Bob Brown", some "bob@x.com", "bob@x.com"⟩

/-- Default search configuration (`minChars = 2`). -/
def cfg2 : SearchCfg := ⟨2⟩

/-- State after row 0 typed "ali": a debounce timer for `⟨0, "ali"⟩` is
pending. -/
def pendingAli : SearchState := inputStep cfg2 0 "ali" initSearch

/-- State after that timer fired: the query `⟨0, "ali"⟩` is in flight. -/
def dispatchedAli : SearchState := fireStep pendingAli

/-- Trace for the stale-result claim: row 0 types "ali", the timer fires
(query Q1 dispatched); row 0 types "bob", the timer fires (query Q2
dispatched); Q2 resolves first with Bob, then the older Q1 resolves with
Alice. -/
def c1Trace : SearchState :=
  resolveOkStep ⟨0, "ali"⟩ [personAlice]
    (resolveOkStep ⟨0, "bob"⟩ [personBob]
      (fireStep (inputStep cfg2 0 "bob" dispatchedAli)))

/-- Trace for the error-scoping claim, after row 0's dispatched search
fails. -/
def c7AfterError : SearchState :=
  resolveErrStep ⟨0, "ali"⟩ "Graph /users search failed: 500" dispatchedAli

/-- Continuation of `c7AfterError`: a keystroke on a different row. -/
def c7AfterOtherRowInput : SearchState :=
  inputStep cfg2 1 "bo" c7AfterError

/-- Two concurrent `ensureAccount` executions, both resumed from
`await ensureMsal()`, before any account exists. -/
def authInitTwo : AuthWorld := ⟨none, 0, [AuthPc.start, AuthPc.start]⟩

/-- State after task 0 ran from `start`: its interactive prompt is open
and unresolved, and no account exists yet. -/
def authAfterFirst : AuthWorld := authRun authInitTwo 0

/-- Interleaved schedule: task 0 runs to its prompt, then task 1 runs
before that prompt resolves. -/
def c2Interleaved : AuthWorld := authRun authAfterFirst 1

/-- Editable state with two resolved rows, for exercising the remove
remap: Alice at position 0, Bob at position 1, with their transient
entries. -/
def c5Sample : EditState where
  rows := [⟨1, "alice@x.com"⟩, ⟨2, "bob@x.com"⟩]
  terms := fun j =>
    if j = 0 then some "Alice Anderson" else if j = 1 then some "Bob Brown" else none
  selections := fun j =>
    if j = 0 then some (some personAlice) else if j = 1 then some (some personBob) else none
  suggestions := fun j => if j = 1 then some [personBob] else none

/-- A persisted value holding eleven rows — more than the default
`maxRows = 10`. -/
def elevenRows : List Row := List.replicate 11 ⟨0, ""⟩

/-- Editable save state with a configured, present mirror sink and a
bound value that differs from the rows' serialization. -/
def saveS0 : SaveState := ⟨false, "", [⟨1, "alice@x.com"⟩], "jsonTarget", true⟩

/-- State after the first `saveValue` call on `saveS0`. -/
def saveS1 : SaveState := (saveValue saveS0).1

/-! ## Lemmas: renumbering -/

theorem row_update_order_eq (r : Row) (k : Nat) :
    ({ r with order := k } = r) ↔ r.order = k := by
  cases r with
  | mk o a => simp [Row.mk.injEq, eq_comm]

theorem renumberFrom_length (n : Nat) (l : List Row) :
    (renumberFrom n l).length = l.length := by
  induction l generalizing n with
  | nil => rfl
  | cons r rest ih => simp [renumberFrom, ih]

theorem renumberFrom_eq_iff (n : Nat) (l : List Row) :
    renumberFrom n l = l ↔ ∀ i (h : i < l.length), (l.get ⟨i, h⟩).order = n + i + 1 := by
  induction l generalizing n with
  | nil => simp [renumberFrom]
  | cons r rest ih =>
    simp only [renumberFrom, List.cons.injEq]
    constructor
    · rintro ⟨h1, h2⟩ i hi
      cases i with
      | zero =>
        show r.order = n + 0 + 1
        have := (row_update_order_eq r (n + 1)).mp h1
        omega
      | succ j =>
        have hj : j < rest.length := Nat.lt_of_succ_lt_succ hi
        have := (ih (n + 1)).mp h2 j hj
        show (rest.get ⟨j, hj⟩).order = n + (j + 1) + 1
        omega
    · intro h
      constructor
      · have h0 := h 0 (Nat.succ_pos _)
        exact (row_update_order_eq r (n + 1)).mpr (by simpa using h0)
      · refine (ih (n + 1)).mpr ?_
        intro j hj
        have := h (j + 1) (Nat.succ_lt_succ hj)
        show (rest.get ⟨j, hj⟩).order = (n + 1) + j + 1
        simpa [Nat.add_assoc, Nat.add_comm, Nat.add_left_comm] using this

theorem ordersOk_iff_renumber_fixed (l : List Row) :
    ordersOk l ↔ renumberOrders l = l := by
  rw [ordersOk, renumberOrders, renumberFrom_eq_iff]
  constructor
  · intro h i hi; simpa using h i hi
  · intro h i hi; simpa using h i hi

theorem renumberFrom_idem (n : Nat) (l : List Row) :
    renumberFrom n (renumberFrom n l) = renumberFrom n l := by
  induction l generalizing n with
  | nil => rfl
  | cons r rest ih =>
    cases r with
    | mk o a => simp [renumberFrom, ih]

theorem ordersOk_renumberOrders (l : List Row) : ordersOk (renumberOrders l) := by
  rw [ordersOk_iff_renumber_fixed, renumberOrders]
  exact renumberFrom_idem 0 l

theorem renumberFrom_append_one (n : Nat) (l : List Row) (a : String)
    (h : renumberFrom n l = l) :
    renumberFrom n (l ++ [⟨n + l.length + 1, a⟩]) = l ++ [⟨n + l.length + 1, a⟩] := by
  induction l generalizing n with
  | nil =>
    show renumberFrom n [⟨n + 1, a⟩] = _
    simp [renumberFrom]
  | cons r rest ih =>
    have h1 : { r with order := n + 1 } = r ∧ renumberFrom (n + 1) rest = rest := by
      simpa [renumberFrom, List.cons.injEq] using h
    have harr : n + (r :: rest).length + 1 = (n + 1) + rest.length + 1 := by
      simp; omega
    show { r with order := n + 1 } ::
        renumberFrom (n + 1) (rest ++ [⟨n + (r :: rest).length + 1, a⟩]) = _
    rw [h1.1, harr, ih (n + 1) h1.2]
    rfl

theorem ordersOk_append_one (l : List Row) (a : String) (h : ordersOk l) :
    ordersOk (l ++ [⟨l.length + 1, a⟩]) := by
  rw [ordersOk_iff_renumber_fixed] at h ⊢
  have := renumberFrom_append_one 0 l a h
  simpa [renumberOrders] using this

theorem ensureMinRowsLoop_ge (minRows : Nat) (rows : List Row) :
    minRows ≤ (ensureMinRowsLoop minRows rows).length := by
  rw [ensureMinRowsLoop]
  split
  · exact ensureMinRowsLoop_ge minRows (rows ++ [⟨rows.length + 1, ""⟩])
  · omega
termination_by minRows - rows.length
decreasing_by simp; omega

theorem ensureMinRowsLoop_ordersOk (minRows : Nat) (rows : List Row)
    (h : ordersOk rows) : ordersOk (ensureMinRowsLoop minRows rows) := by
  rw [ensureMinRowsLoop]
  split
  · exact ensureMinRowsLoop_ordersOk minRows (rows ++ [⟨rows.length + 1, ""⟩])
      (ordersOk_append_one rows "" h)
  · exact h
termination_by minRows - rows.length
decreasing_by simp; omega

theorem ensureMinRowsLoop_of_ge (minRows : Nat) (rows : List Row)
    (h : minRows ≤ rows.length) : ensureMinRowsLoop minRows rows = rows := by
  rw [ensureMinRowsLoop]
  split
  · omega
  · rfl

theorem renumberFrom_map_order (n : Nat) (l : List Row) :
    (renumberFrom n l).map Row.order = List.range' (n + 1) l.length := by
  induction l generalizing n with
  | nil => rfl
  | cons r rest ih =>
    simp [renumberFrom, List.range'_succ, ih]

theorem ordersOk_map_order (l : List Row) (h : ordersOk l) :
    l.map Row.order = List.range' 1 l.length := by
  rw [ordersOk_iff_renumber_fixed, renumberOrders] at h
  have := renumberFrom_map_order 0 l
  rw [h] at this
  simpa using this

/-! ## Lemmas: debounced search pipeline -/

theorem inputStep_searchLog (cfg : SearchCfg) (i : Nat) (v : String) (s : SearchState) :
    (inputStep cfg i v s).searchLog = s.searchLog := by
  simp only [inputStep]
  split <;> rfl

theorem inputStep_inflight (cfg : SearchCfg) (i : Nat) (v : String) (s : SearchState) :
    (inputStep cfg i v s).inflight = s.inflight := by
  simp only [inputStep]
  split <;> rfl

theorem inputStep_pendingTimer (cfg : SearchCfg) (i : Nat) (v : String) (s : SearchState) :
    (inputStep cfg i v s).pendingTimer
      = (if v.length < cfg.eff then none else some ⟨i, v⟩) := by
  simp only [inputStep]
  split <;> rfl

theorem inputStep_suggestions_self_short (cfg : SearchCfg) (i : Nat) (v : String)
    (s : SearchState) (h : v.length < cfg.eff) :
    (inputStep cfg i v s).suggestions i = none := by
  simp [inputStep, h, delKey]

theorem fireStep_pending_none (s : SearchState) (h : s.pendingTimer = none) :
    fireStep s = s := by
  unfold fireStep
  rw [h]

theorem fireStep_pending_some (s : SearchState) (q : Query) (h : s.pendingTimer = some q) :
    fireStep s = { s with pendingTimer := none
                          loading := true
                          inflight := s.inflight ++ [q]
                          searchLog := s.searchLog ++ [q] } := by
  unfold fireStep
  rw [h]

theorem applyBurst_props (cfg : SearchCfg) (i : Nat) :
    ∀ (vs : List String) (v : String) (s : SearchState),
      vs.getLast? = some v →
      (applyBurst cfg i vs s).pendingTimer
          = (if v.length < cfg.eff then none else some ⟨i, v⟩)
      ∧ (applyBurst cfg i vs s).searchLog = s.searchLog
      ∧ (v.length < cfg.eff → (applyBurst cfg i vs s).suggestions i = none)
  | [], v, s, h => by simp at h
  | [w], v, s, h => by
    have hv : w = v := by simpa using h
    subst hv
    refine ⟨inputStep_pendingTimer cfg i w s, inputStep_searchLog cfg i w s, ?_⟩
    exact fun hlt => inputStep_suggestions_self_short cfg i w s hlt
  | w :: x :: rest, v, s, h => by
    have h2 : (x :: rest).getLast? = some v := by
      simpa [List.getLast?_cons_cons] using h
    have ih := applyBurst_props cfg i (x :: rest) v (inputStep cfg i w s) h2
    refine ⟨ih.1, ?_, ih.2.2⟩
    rw [show applyBurst cfg i (w :: x :: rest) s
          = applyBurst cfg i (x :: rest) (inputStep cfg i w s) from rfl,
        ih.2.1, inputStep_searchLog]

/-! ## Claim C6 -/

/-- C6: for one row, a burst of keystrokes inside the debounce idle
window followed by the timer elapsing issues exactly one search call,
carrying the last keystroke's term, provided that term meets the
threshold; if the last term is below the threshold no call is issued and
the row's suggestion list is cleared; and a below-threshold keystroke by
itself clears the row's suggestions, schedules nothing, and issues no
query. -/
theorem c6_debounce_last_term (cfg : SearchCfg) (i : Nat) (vs : List String)
    (v : String) (s : SearchState) (hlast : vs.getLast? = some v) :
    (cfg.eff ≤ v.length →
      (fireStep (applyBurst cfg i vs s)).searchLog = s.searchLog ++ [⟨i, v⟩])
    ∧ (v.length < cfg.eff →
      (fireStep (applyBurst cfg i vs s)).searchLog = s.searchLog
      ∧ (fireStep (applyBurst cfg i vs s)).suggestions i = none)
    ∧ (∀ w : String, w.length < cfg.eff →
      (inputStep cfg i w s).suggestions i = none
      ∧ (inputStep cfg i w s).pendingTimer = none
      ∧ (inputStep cfg i w s).searchLog = s.searchLog) := by
  obtain ⟨hp, hl, hs⟩ := applyBurst_props cfg i vs v s hlast
  refine ⟨?_, ?_, ?_⟩
  · intro hv
    have hpend : (applyBurst cfg i vs s).pendingTimer = some ⟨i, v⟩ := by
      rw [hp, if_neg (Nat.not_lt.mpr hv)]
    rw [fireStep_pending_some _ _ hpend]
    simpa using hl
  · intro hv
    have hpend : (applyBurst cfg i vs s).pendingTimer = none := by
      rw [hp, if_pos hv]
    rw [fireStep_pending_none _ hpend]
    exact ⟨hl, hs hv⟩
  · intro w hw
    refine ⟨inputStep_suggestions_self_short cfg i w s hw, ?_,
      inputStep_searchLog cfg i w s⟩
    rw [inputStep_pendingTimer, if_pos hw]

/-- Witness for C6 at the spec's own example: `minChars = 2`, typing
"a" then "al" in one burst issues exactly one query, for "al". -/
theorem c6_witness :
    (["a", "al"].getLast? = some "al")
    ∧ (fireStep (applyBurst cfg2 0 ["a", "al"] initSearch)).searchLog
        = initSearch.searchLog ++ [⟨0, "al"⟩] :=
  ⟨rfl, (c6_debounce_last_term cfg2 0 ["a", "al"] "al" initSearch rfl).1 (by decide)⟩

/-! ## Claim C9 -/

/-- C9: the component keeps a single debounce timer shared by all rows
(`debounceTimer`, src line 86): an input event on row `b` cancels the
currently pending scheduled search even when it was scheduled by a
different row `qA.row`, leaving either no pending search or row `b`'s
own; firing afterwards can only dispatch row `b`'s query, never the
suppressed one. -/
theorem c9_single_shared_timer (cfg : SearchCfg) (s : SearchState) (qA : Query)
    (b : Nat) (v : String) (_hp : s.pendingTimer = some qA) (hb : b ≠ qA.row) :
    (inputStep cfg b v s).pendingTimer ≠ some qA
    ∧ ((inputStep cfg b v s).pendingTimer = none
       ∨ (inputStep cfg b v s).pendingTimer = some ⟨b, v⟩)
    ∧ ((fireStep (inputStep cfg b v s)).searchLog = s.searchLog
       ∨ (fireStep (inputStep cfg b v s)).searchLog = s.searchLog ++ [⟨b, v⟩]) := by
  have hpt := inputStep_pendingTimer cfg b v s
  by_cases hv : v.length < cfg.eff
  · rw [if_pos hv] at hpt
    refine ⟨by simp [hpt], Or.inl hpt, Or.inl ?_⟩
    rw [fireStep_pending_none _ hpt, inputStep_searchLog]
  · rw [if_neg hv] at hpt
    refine ⟨?_, Or.inr hpt, Or.inr ?_⟩
    · rw [hpt]
      intro hcon
      exact hb (congrArg Query.row (Option.some.injEq .. ▸ hcon))
    · rw [fireStep_pending_some _ _ hpt]
      simp [inputStep_searchLog]

/-- Witness for C9: with row 0's query pending, a keystroke on row 1
suppresses it. -/
theorem c9_witness :
    (inputStep cfg2 1 "bo" pendingAli).pendingTimer ≠ some ⟨0, "ali"⟩
    ∧ ((inputStep cfg2 1 "bo" pendingAli).pendingTimer = none
       ∨ (inputStep cfg2 1 "bo" pendingAli).pendingTimer = some ⟨1, "bo"⟩)
    ∧ ((fireStep (inputStep cfg2 1 "bo" pendingAli)).searchLog = pendingAli.searchLog
       ∨ (fireStep (inputStep cfg2 1 "bo" pendingAli)).searchLog
           = pendingAli.searchLog ++ [⟨1, "bo"⟩]) :=
  c9_single_shared_timer cfg2 pendingAli ⟨0, "ali"⟩ 1 "bo" (by decide) (by decide)

/-! ## Claim C1 -/

/-- C1 counterexample: the claim says suggestions resolved for an old
term are never applied once the row's term has changed (last-writer-wins
by start order).  In `c1Trace`, row 0's term is "bob" and the "bob"
query — the most recently started one — already resolved, yet the final
suggestion list is the one resolved for the superseded "ali" query: the
timer callback (src lines 522-537) applies results unconditionally, so
the writer that completes last wins. -/
theorem c1_counterexample :
    c1Trace.terms 0 = some "bob" ∧ c1Trace.suggestions 0 = some [personAlice] := by
  decide

/-- C1 amended: cancellation exists only at the debounce-timer stage.  A
keystroke never removes an already-dispatched query, and when a
dispatched query resolves, its results are written to its row's
suggestion list unconditionally — last-writer-wins by completion order,
not start order. -/
theorem c1_amended_completion_order_wins (cfg : SearchCfg) (s : SearchState)
    (q : Query) (r : List Person) (hq : q ∈ s.inflight) :
    (resolveOkStep q r s).suggestions q.row = some r
    ∧ ∀ (b : Nat) (v : String), (inputStep cfg b v s).inflight = s.inflight := by
  constructor
  · simp [resolveOkStep, hq, setKey]
  · intro b v
    exact inputStep_inflight cfg b v s

/-- Witness for the amended C1 on the dispatched "ali" query. -/
theorem c1_witness :
    (resolveOkStep ⟨0, "ali"⟩ [personAlice] dispatchedAli).suggestions 0
        = some [personAlice]
    ∧ (inputStep cfg2 1 "xy" dispatchedAli).inflight = dispatchedAli.inflight :=
  have h := c1_amended_completion_order_wins cfg2 dispatchedAli ⟨0, "ali"⟩
    [personAlice] (by decide)
  ⟨h.1, h.2 1 "xy"⟩

/-! ## Claim C7 -/

/-- C7 counterexample: the claim says a search failure sets a row-scoped
error state.  The component has a single shared `errorMsg` field: after
row 0's search fails, a keystroke on row 1 (src line 513) erases row 0's
error message — the error state is component-wide, not row-scoped. -/
theorem c7_counterexample :
    c7AfterError.errorMsg = "Graph /users search failed: 500"
    ∧ c7AfterOtherRowInput.errorMsg = ""
    ∧ c7AfterOtherRowInput.terms 0 = some "ali" := by
  decide

/-- C7 amended: a search failure for one row sets the single shared
component-wide advisory message (cleared again by the next keystroke on
any row), clears the failing row's suggestions, and leaves every other
row's suggestion state unaffected. -/
theorem c7_amended_shared_error_local_suggestions (cfg : SearchCfg)
    (s : SearchState) (q : Query) (msg : String) (hq : q ∈ s.inflight) :
    (resolveErrStep q msg s).errorMsg = (if msg = "" then "Search error." else msg)
    ∧ (resolveErrStep q msg s).suggestions q.row = none
    ∧ (∀ j, j ≠ q.row → (resolveErrStep q msg s).suggestions j = s.suggestions j)
    ∧ (∀ (b : Nat) (v : String),
        (inputStep cfg b v (resolveErrStep q msg s)).errorMsg = "") := by
  refine ⟨by simp [resolveErrStep, hq], by simp [resolveErrStep, hq, delKey], ?_, ?_⟩
  · intro j hj
    simp [resolveErrStep, hq, delKey, hj]
  · intro b v
    simp only [inputStep]
    split <;> rfl

/-- Witness for the amended C7 on the dispatched "ali" query. -/
theorem c7_witness :
    (resolveErrStep ⟨0, "ali"⟩ "boom" dispatchedAli).errorMsg
        = (if "boom" = "" then "Search error." else "boom")
    ∧ (resolveErrStep ⟨0, "ali"⟩ "boom" dispatchedAli).suggestions 0 = none
    ∧ (resolveErrStep ⟨0, "ali"⟩ "boom" dispatchedAli).suggestions 1
        = dispatchedAli.suggestions 1
    ∧ (inputStep cfg2 1 "xy" (resolveErrStep ⟨0, "ali"⟩ "boom" dispatchedAli)).errorMsg
        = "" :=
  have h := c7_amended_shared_error_local_suggestions cfg2 dispatchedAli
    ⟨0, "ali"⟩ "boom" (by decide)
  ⟨h.1, h.2.1, h.2.2.1 1 (by decide), h.2.2.2 1 "xy"⟩

/-! ## Claim C2 -/

/-- C2 counterexample: the claim says two concurrent credential requests
before any account exists open exactly one interactive prompt, via a
single-flight lock.  `ensureAccount` (src lines 423-433) consults no
lock: in the interleaved schedule where task 1 reads the shared account
while task 0's prompt is still unresolved, both invoke `loginPopup`, so
two interactive prompts are opened. -/
theorem c2_counterexample :
    c2Interleaved.prompts = 2 ∧ c2Interleaved.prompts ≠ 1 := by
  decide

/-- C2 amended: there is no single-flight lock.  A credential request
that reads the shared account and finds none always opens its own
interactive prompt — even while another request's prompt is still in
flight — and a request that finds an established account opens none;
prompts are avoided only by requests that start after a prompt has
resolved. -/
theorem c2_amended_no_single_flight_lock (w : AuthWorld) (t : Nat)
    (h : w.tasks.get? t = some AuthPc.start) :
    (w.account = none → (authRun w t).prompts = w.prompts + 1)
    ∧ (∀ a, w.account = some a → (authRun w t).prompts = w.prompts) := by
  constructor
  · intro ha
    unfold authRun
    rw [h, ha]
  · intro a ha
    unfold authRun
    rw [h, ha]

/-- Witness for the amended C2: while task 0's prompt is unresolved,
task 1 — still at its account check — opens a second prompt. -/
theorem c2_witness :
    authAfterFirst.account = none
    ∧ (authRun authAfterFirst 1).prompts = authAfterFirst.prompts + 1 :=
  ⟨rfl, (c2_amended_no_single_flight_lock authAfterFirst 1 (by decide)).1 rfl⟩

/-! ## Claim C3 -/

/-- C3 counterexample: the claim says `minRows ≤ length ≤ maxRows` holds
for every editable-mode state, including the one produced by loading a
persisted value.  `loadValue` (src lines 285-297) never truncates: with
the default bounds (`minRows = 1`, `maxRows = 10`), loading a persisted
value of eleven rows in editable mode leaves eleven rows, violating the
upper bound. -/
theorem c3_counterexample :
    (loadRows false 1 elevenRows).length = 11
    ∧ ¬ (loadRows false 1 elevenRows).length ≤ 10 := by
  have hlen : (renumberOrders elevenRows).length = 11 := by
    rw [renumberOrders, renumberFrom_length]
    rfl
  have h : loadRows false 1 elevenRows = renumberOrders elevenRows := by
    rw [loadRows]
    simp only [Bool.false_eq_true, if_false]
    exact ensureMinRowsLoop_of_ge 1 _ (by omega)
  rw [h, hlen]
  omega

/-- C3 amended: in editable mode `add()` is a silent no-op at or above
`maxRows` and preserves the upper bound, and both the remove-then-refill
path and loading a persisted value guarantee the lower bound
`minRows ≤ length`; but the upper bound is not enforced when loading a
persisted value — an over-bound persisted collection stays over bound. -/
theorem c3_amended_bounds (minRows maxRows i : Nat) (rows parsed : List Row) :
    (maxRows ≤ rows.length → addRow maxRows rows = rows)
    ∧ (rows.length ≤ maxRows → (addRow maxRows rows).length ≤ maxRows)
    ∧ minRows ≤ (removeRowRows minRows i rows).length
    ∧ minRows ≤ (loadRows false minRows parsed).length := by
  refine ⟨?_, ?_, ensureMinRowsLoop_ge minRows _, ?_⟩
  · intro h
    rw [addRow, if_pos h]
  · intro h
    rw [addRow]
    split
    · exact h
    · simpa using by omega
  · rw [loadRows]
    simp only [Bool.false_eq_true, if_false]
    exact ensureMinRowsLoop_ge minRows _

/-- Witness for the amended C3: at capacity (`maxRows = 2`), add is a
no-op; remove-then-refill and load respect `minRows = 1`. -/
theorem c3_witness :
    addRow 2 [⟨1, "a@x.com"⟩, ⟨2, "b@x.com"⟩] = [⟨1, "a@x.com"⟩, ⟨2, "b@x.com"⟩]
    ∧ (addRow 2 [⟨1, "a@x.com"⟩, ⟨2, "b@x.com"⟩]).length ≤ 2
    ∧ 1 ≤ (removeRowRows 1 0 [⟨1, "a@x.com"⟩, ⟨2, "b@x.com"⟩]).length
    ∧ 1 ≤ (loadRows false 1 []).length :=
  have h := c3_amended_bounds 1 2 0 [⟨1, "a@x.com"⟩, ⟨2, "b@x.com"⟩] []
  ⟨h.1 (by decide), h.2.1 (by decide), h.2.2.1, h.2.2.2⟩

/-! ## Claim C4 -/

theorem saveValue_fst (s : SaveState) (h : s.displayMode = false) :
    (saveValue s).1 = { s with value := stringifyRows s.rows } := by
  unfold saveValue
  rw [h]
  simp only [Bool.false_eq_true, if_false]
  split
  · rfl
  · next hv =>
    have hv2 : s.value = stringifyRows s.rows := by
      by_contra hc
      exact hv hc
    cases s with
    | mk dm v rows tid sp => simp_all

theorem saveValue_of_fixed (s : SaveState) (h : s.displayMode = false)
    (hv : s.value = stringifyRows s.rows) :
    saveValue s = (s,
      if s.jsonTargetId ≠ "" ∧ s.sinkPresent then
        [Emission.sinkWrite s.jsonTargetId (stringifyRowsPretty s.rows)]
      else []) := by
  unfold saveValue
  rw [h]
  simp [hv]

/-- C4 counterexample: the claim says the mirror sink is written only on
a real change.  `saveS1` is the state right after a real save, so the
second `saveValue` call changes nothing and emits no host notification —
yet it writes the mirror sink again, because the sink block (src lines
345-383) sits outside the `value !== newValue` comparison. -/
theorem c4_counterexample :
    (saveValue saveS1).1 = saveS1
    ∧ (saveValue saveS1).2.filter Emission.isHostValueChange = []
    ∧ (saveValue saveS1).2
        = [Emission.sinkWrite "jsonTarget" (stringifyRowsPretty saveS0.rows)] := by
  decide

/-- C4 amended: saving is idempotent with respect to the host value and
its change notification — a second save with no intervening change
leaves the state unchanged and emits no host value-change notification —
but the configured mirror sink is written on every editable-mode save,
not only on a real change. -/
theorem c4_amended_idempotent_host_sink_every_save (s : SaveState)
    (h : s.displayMode = false) :
    (saveValue (saveValue s).1).1 = (saveValue s).1
    ∧ ((saveValue (saveValue s).1).2.filter Emission.isHostValueChange) = []
    ∧ (s.jsonTargetId ≠ "" → s.sinkPresent = true →
        Emission.sinkWrite s.jsonTargetId (stringifyRowsPretty s.rows)
          ∈ (saveValue (saveValue s).1).2) := by
  have h1 : (saveValue s).1 = { s with value := stringifyRows s.rows } :=
    saveValue_fst s h
  have h2 : saveValue (saveValue s).1 = ((saveValue s).1,
      if s.jsonTargetId ≠ "" ∧ s.sinkPresent then
        [Emission.sinkWrite s.jsonTargetId (stringifyRowsPretty s.rows)]
      else []) := by
    rw [h1]
    exact saveValue_of_fixed _ h rfl
  rw [h2]
  refine ⟨rfl, ?_, ?_⟩
  · split
    · rfl
    · rfl
  · intro ht hs
    rw [if_pos ⟨ht, hs⟩]
    exact List.mem_singleton.mpr rfl

/-- Witness for the amended C4 on `saveS0` (editable, sink configured
and present). -/
theorem c4_witness :
    (saveValue (saveValue saveS0).1).1 = (saveValue saveS0).1
    ∧ ((saveValue (saveValue saveS0).1).2.filter Emission.isHostValueChange) = []
    ∧ Emission.sinkWrite "jsonTarget" (stringifyRowsPretty saveS0.rows)
        ∈ (saveValue (saveValue saveS0).1).2 :=
  have h := c4_amended_idempotent_host_sink_every_save saveS0 rfl
  ⟨h.1, h.2.1, h.2.2 (by decide) rfl⟩

/-! ## Claim C5 -/

/-- C5: for every valid `index < length`, `removeRow` remaps all three
position-keyed transient mappings in the same synchronous step as the
row deletion: every surviving position `i` reads the old content at `i`
when `i < index` and the old content at `i + 1` otherwise, for terms,
selections and suggestions alike. -/
theorem c5_remove_remaps_transients (minRows index : Nat) (s : EditState)
    (hidx : index < s.rows.length) (i : Nat) (hi : i + 1 < s.rows.length) :
    getTerm (removeRowE minRows index s).terms i
        = getTerm s.terms (if i < index then i else i + 1)
    ∧ getSel (removeRowE minRows index s).selections i
        = getSel s.selections (if i < index then i else i + 1)
    ∧ getSugg (removeRowE minRows index s).suggestions i
        = getSugg s.suggestions (if i < index then i else i + 1) := by
  have h1 : i < (s.rows.eraseIdx index).length := by
    rw [List.length_eraseIdx_of_lt hidx]
    omega
  refine ⟨?_, ?_, ?_⟩ <;>
    simp only [removeRowE, getTerm, getSel, getSugg, h1, if_pos, Option.getD_some] <;>
    rcases Nat.lt_or_ge i index with hlt | hge
  · rw [if_neg (Nat.not_le.mpr hlt), if_pos hlt]
  · rw [if_pos hge, if_neg (Nat.not_lt.mpr hge)]
  · rw [if_neg (Nat.not_le.mpr hlt), if_pos hlt]
  · rw [if_pos hge, if_neg (Nat.not_lt.mpr hge)]
  · rw [if_neg (Nat.not_le.mpr hlt), if_pos hlt]
  · rw [if_pos hge, if_neg (Nat.not_lt.mpr hge)]

/-- Witness for C5 at the spec's example shape: removing position 0 of
[Alice, Bob] makes surviving position 0 carry Bob's transient content. -/
theorem c5_witness :
    getTerm (removeRowE 1 0 c5Sample).terms 0 = getTerm c5Sample.terms 1
    ∧ getSel (removeRowE 1 0 c5Sample).selections 0 = getSel c5Sample.selections 1
    ∧ getSugg (removeRowE 1 0 c5Sample).suggestions 0 = getSugg c5Sample.suggestions 1 :=
  c5_remove_remaps_transients 1 0 c5Sample (by decide) 0 (by decide)

/-! ## Claim C8 -/

/-- C8: after any structural edit — add, remove (with its refill),
moveUp, moveDown, the `ensureMinRows` backfill, or load — every row's
`order` equals its position plus one; consequently the order values of a
size-`N` collection are exactly `1..N`; and `renumberOrders` is
idempotent. -/
theorem c8_renumber_invariant (dm : Bool) (minRows maxRows i : Nat)
    (rows parsed : List Row) (h : ordersOk rows) :
    ordersOk (addRow maxRows rows)
    ∧ ordersOk (removeRowRows minRows i rows)
    ∧ ordersOk (moveUpRows i rows)
    ∧ ordersOk (moveDownRows i rows)
    ∧ ordersOk (ensureMinRowsLoop minRows rows)
    ∧ ordersOk (loadRows dm minRows parsed)
    ∧ renumberOrders (renumberOrders rows) = renumberOrders rows
    ∧ rows.map Row.order = List.range' 1 rows.length := by
  refine ⟨?_, ?_, ?_, ?_, ?_, ?_, ?_, ?_⟩
  · rw [addRow]
    split
    · exact h
    · exact ordersOk_append_one rows "" h
  · exact ensureMinRowsLoop_ordersOk minRows _ (ordersOk_renumberOrders _)
  · rw [moveUpRows]
    split
    · exact h
    · exact ordersOk_renumberOrders _
  · rw [moveDownRows]
    split
    · exact h
    · exact ordersOk_renumberOrders _
  · exact ensureMinRowsLoop_ordersOk minRows rows h
  · rw [loadRows]
    split
    · exact ordersOk_renumberOrders _
    · exact ensureMinRowsLoop_ordersOk minRows _ (ordersOk_renumberOrders _)
  · exact renumberFrom_idem 0 rows
  · exact ordersOk_map_order rows h

/-- Witness for C8 at a two-row collection (edits at index 1,
`minRows = 1`, `maxRows = 10`, a one-row persisted value to load). -/
theorem c8_witness :
    ordersOk (addRow 10 [⟨1, "a@x.com"⟩, ⟨2, "b@x.com"⟩])
    ∧ ordersOk (removeRowRows 1 1 [⟨1, "a@x.com"⟩, ⟨2, "b@x.com"⟩])
    ∧ ordersOk (moveUpRows 1 [⟨1, "a@x.com"⟩, ⟨2, "b@x.com"⟩])
    ∧ ordersOk (moveDownRows 1 [⟨1, "a@x.com"⟩, ⟨2, "b@x.com"⟩])
    ∧ ordersOk (ensureMinRowsLoop 1 [⟨1, "a@x.com"⟩, ⟨2, "b@x.com"⟩])
    ∧ ordersOk (loadRows false 1 [⟨7, "c@x.com"⟩])
    ∧ renumberOrders (renumberOrders [⟨1, "a@x.com"⟩, ⟨2, "b@x.com"⟩])
        = renumberOrders [⟨1, "a@x.com"⟩, ⟨2, "b@x.com"⟩]
    ∧ [Row.mk 1 "a@x.com", Row.mk 2 "b@x.com"].map Row.order
        = List.range' 1 [Row.mk 1 "a@x.com", Row.mk 2 "b@x.com"].length :=
  c8_renumber_invariant false 1 10 1 [⟨1, "a@x.com"⟩, ⟨2, "b@x.com"⟩]
    [⟨7, "c@x.com"⟩] ((ordersOk_iff_renumber_fixed _).mpr rfl)

/-! ## Claim C10 -/

theorem loadValueResolveRequests_mem (dm : Bool) (rows : List Row) (r : Row)
    (hr : r ∈ rows) (ha : r.approver ≠ "") :
    Request.resolveByKey r.approver ∈ loadValueResolveRequests dm rows
    ∧ Request.tokenAcquisition ∈ loadValueResolveRequests dm rows := by
  induction hr with
  | head rest =>
    constructor <;>
      simp [loadValueResolveRequests, fetchUserDetailsRequests, ha]
  | tail b hmem ih =>
    constructor <;>
      · simp only [loadValueResolveRequests, List.mem_append]
        exact Or.inr (by tauto)

/-- C10: the read-only short-circuit applies to search but not to
resolve.  In display mode, the load-time loop still issues a by-key
directory lookup — and hence a token acquisition, possibly including an
interactive prompt — for every row with a non-empty approver key, while
`graphSearch` returns an empty list without issuing any request. -/
theorem c10_display_resolve_not_search (rows : List Row) (term : String)
    (r : Row) (hr : r ∈ rows) (ha : r.approver ≠ "") :
    Request.resolveByKey r.approver ∈ loadValueResolveRequests true rows
    ∧ Request.tokenAcquisition ∈ loadValueResolveRequests true rows
    ∧ graphSearchRequests true term = [] :=
  have h := loadValueResolveRequests_mem true rows r hr ha
  ⟨h.1, h.2, rfl⟩

/-- Witness for C10 on a one-row persisted value. -/
theorem c10_witness :
    Request.resolveByKey "alice@x.com"
        ∈ loadValueResolveRequests true [⟨1, "alice@x.com"⟩]
    ∧ Request.tokenAcquisition ∈ loadValueResolveRequests true [⟨1, "alice@x.com"⟩]
    ∧ graphSearchRequests true "ali" = [] :=
  c10_display_resolve_not_search [⟨1, "alice@x.com"⟩] "ali" ⟨1, "alice@x.com"⟩
    (by decide) (by decide)

end Approvers
